import Mathlib

/-!
# Verification of the ML-KEM modular-reduction LUT generator

Shallow embedding of `src/scripts/modular_reduce_lut.py`, which precomputes
lookup tables reducing a 26-bit product modulo q = 3329.  The script builds,
for each 4-bit chunk weight `w = 2^shift % q`, the table `i ↦ (i * w) % q`
for `i` in `range(16)`, and a composite 2-bit high table where bits 24 and 25
contribute independent weights that are summed before reduction.
-/

namespace ModularReduceLut

/-- `q = 3329`, the ML-KEM prime modulus (source line 17). -/
def q : Nat := 3329

/-- The dictionary `weights_4bit` (source lines 20-24): chunk name paired with
its positional weight `(2^shift) % q`. -/
def weights_4bit : List (String × Nat) :=
  [("LUT_23_20", 2 ^ 20 % q),
   ("LUT_19_16", 2 ^ 16 % q),
   ("LUT_15_12", 2 ^ 12 % q)]

/-- The weight expression the script uses at every shift: `(2**shift) % q`
with exact (unbounded) integer arithmetic (source lines 21-23, 45-46). -/
def weight (shift : Nat) : Nat := 2 ^ shift % q

/-- The single-weight 4-bit chunk table (source lines 35-37):
`for i in range(16): val = (i * w) % q`, emitting the pair `(i, val)`. -/
def chunkTable (w : Nat) : List (Nat × Nat) :=
  (List.range 16).map fun i => (i, (i * w) % q)

/-- `weight_24 = (2**24) % q` (source line 45). -/
def weight_24 : Nat := 2 ^ 24 % q

/-- `weight_25 = (2**25) % q` (source line 46). -/
def weight_25 : Nat := 2 ^ 25 % q

/-- The body of the high-chunk loop (source lines 57-61):
`val = 0; if (i & 1): val += weight_24; if (i & 2): val += weight_25;
val = val % q`. -/
def highVal (i : Nat) : Nat :=
  let val : Nat := 0
  let val := if i &&& 1 ≠ 0 then val + weight_24 else val
  let val := if i &&& 2 ≠ 0 then val + weight_25 else val
  val % q

/-- The composite 2-bit high-chunk table (source lines 55-62):
`for i in range(4)`, emitting the pair `(i, val)`. -/
def chunk_high_table : List (Nat × Nat) :=
  (List.range 4).map fun i => (i, highVal i)

/-- The reduced value specified for a composite chunk: the sum of the weights
of the set bits, reduced mod q (spec §4.3), stated with `Nat.testBit`. -/
def sumOfSetBitWeights (i : Nat) : Nat :=
  ((if i.testBit 0 then weight_24 else 0) +
   (if i.testBit 1 then weight_25 else 0)) % q

/-- The range policy of spec §4.2: enumerate the full `bit_width`-bit domain,
or only `0 .. architectural_max` (exclusive). -/
inductive RangePolicy where
  | fullDomain : RangePolicy
  | restrictedDomain (architectural_max : Nat) : RangePolicy
deriving DecidableEq

/-- Modelled from the spec: the parameterized single-weight generator of
§4.2 with an explicit range policy.  The restricted-domain variant is not in
`src/` — the source's loop was updated to `range(16)` for all chunks (source
line 34's comment), so only the full-domain loop survives there; the
restricted-domain enumeration `0 .. architectural_max` follows the spec's
words. -/
def generate_table (w bit_width : Nat) (policy : RangePolicy) : List (Nat × Nat) :=
  match policy with
  | .fullDomain => (List.range (2 ^ bit_width)).map fun i => (i, (i * w) % q)
  | .restrictedDomain m => (List.range m).map fun i => (i, (i * w) % q)

/-- One whole generation run of the script: the three 4-bit chunk tables in
dictionary order, then the high-chunk table (source lines 30-62). -/
def generation_run : List (String × List (Nat × Nat)) :=
  weights_4bit.map (fun p => (p.1, chunkTable p.2)) ++
    [("chunk_high", chunk_high_table)]

/-- The chunk values of a single-weight table are exactly `0, 1, ..., 15`
in order: the table is the image of `List.range 16`. -/
theorem chunkTable_map_fst (w : Nat) :
    (chunkTable w).map Prod.fst = List.range 16 := by
  have h : (Prod.fst ∘ fun i : Nat => (i, i * w % q)) = id := rfl
  rw [chunkTable, List.map_map, h, List.map_id]

/-- C1: For every single-weight chunk table, every generated row pairs a
`chunk_value` with `reduced_value = (chunk_value * weight) mod q`, with
`q = 3329`, and the table contains exactly one row per `chunk_value` in the
enumerated range (its chunk values are exactly `List.range 16`). -/
theorem c1_single_weight_table (w : Nat) :
    (chunkTable w).map Prod.fst = List.range 16 ∧
    ∀ r ∈ chunkTable w, r.2 = (r.1 * w) % 3329 := by
  refine ⟨chunkTable_map_fst w, ?_⟩
  intro r hr
  simp only [chunkTable, List.mem_map, List.mem_range] at hr
  obtain ⟨i, hi, rfl⟩ := hr
  rfl

/-- Witness for C1: the table for weight 767 at the concrete row `(15, 1518)`. -/
theorem c1_single_weight_table_witness :
    ((chunkTable 767).map Prod.fst = List.range 16) ∧
    ((15 : Nat), (1518 : Nat)).2 = (((15 : Nat), (1518 : Nat)).1 * 767) % 3329 :=
  ⟨(c1_single_weight_table 767).1,
   (c1_single_weight_table 767).2 (15, 1518) (by decide)⟩

/-- C2: For every non-negative shift, the weight equals `(2^shift) mod 3329`
computed with exact integer arithmetic and lies in `[0, q)`; in particular
`weight 20 = 3270`, `weight 16 = 2285`, `weight 12 = 767`, `weight 24 = 2385`,
`weight 25 = 1441`, and these are exactly the weights the script uses. -/
theorem c2_weight_exact (shift : Nat) :
    weight shift = 2 ^ shift % 3329 ∧ weight shift < 3329 ∧
    weight 20 = 3270 ∧ weight 16 = 2285 ∧ weight 12 = 767 ∧
    weight 24 = 2385 ∧ weight 25 = 1441 ∧
    weights_4bit.map Prod.snd = [weight 20, weight 16, weight 12] ∧
    weight_24 = weight 24 ∧ weight_25 = weight 25 := by
  refine ⟨rfl, ?_, by decide, by decide, by decide, by decide, by decide,
    by decide, rfl, rfl⟩
  exact Nat.mod_lt _ (by decide)

/-- C3: The composite 2-bit high-chunk table has one row per combination of
the two flag bits; each row's `reduced_value` is the sum of the weights of
the set bits reduced mod 3329; with `weight_24 = 2385` and
`weight_25 = 1441` it maps 0 to 0, 1 to 2385, 2 to 1441 and 3 to 497, and
the all-zero combination reduces to 0. -/
theorem c3_composite_table :
    chunk_high_table.map Prod.fst = List.range 4 ∧
    chunk_high_table = [(0, 0), (1, 2385), (2, 1441), (3, 497)] ∧
    (∀ i < 4, highVal i = sumOfSetBitWeights i) ∧
    highVal 0 = 0 := by
  refine ⟨by decide, by decide, ?_, by decide⟩
  decide

/-- Witness for C3: the sum-of-set-bit-weights rule at the concrete input 3. -/
theorem c3_composite_table_witness : highVal 3 = sumOfSetBitWeights 3 :=
  c3_composite_table.2.2.1 3 (by decide)

/-- C4 counterexample: the full-domain table for weight 767 does NOT map
chunk 15 to 2176; `(15 * 767) % 3329 = 1518`, and the row produced is
`(15, 1518)`. -/
theorem c4_counterexample :
    (15 * 767) % 3329 = 1518 ∧ (15 * 767) % 3329 ≠ 2176 ∧
    ((15 : Nat), (2176 : Nat)) ∉ chunkTable 767 ∧
    ((15 : Nat), (1518 : Nat)) ∈ chunkTable 767 := by decide

/-- C4 (amended): Under the full-domain policy, the 4-bit chunk with weight
767 (shift 12) yields exactly 16 rows covering chunk values 0 through 15,
mapping 0 to 0, 1 to 767, and 15 to `(15 * 767) % 3329 = 1518`. -/
theorem c4_full_domain_767 :
    (chunkTable 767).length = 16 ∧
    (chunkTable 767).map Prod.fst = List.range 16 ∧
    ((0 : Nat), (0 : Nat)) ∈ chunkTable 767 ∧
    ((1 : Nat), (767 : Nat)) ∈ chunkTable 767 ∧
    ((15 : Nat), (15 * 767) % 3329) ∈ chunkTable 767 ∧
    (15 * 767) % 3329 = 1518 := by decide

/-- C5: Under the restricted-domain range policy, a 4-bit chunk with weight
767 and an exclusive upper bound of 11 yields a table of exactly 11 rows,
covering chunk values 0 through 10 only. -/
theorem c5_restricted_domain :
    (generate_table 767 4 (.restrictedDomain 11)).length = 11 ∧
    (generate_table 767 4 (.restrictedDomain 11)).map Prod.fst = List.range 11 ∧
    ∀ r ∈ generate_table 767 4 (.restrictedDomain 11), r.1 < 11 := by
  refine ⟨by decide, by decide, ?_⟩
  intro r hr
  simp only [generate_table, List.mem_map, List.mem_range] at hr
  obtain ⟨i, hi, rfl⟩ := hr
  exact hi

/-- Witness for C5: the concrete row `(10, 1012)` of the restricted table has
chunk value below 11. -/
theorem c5_restricted_domain_witness : ((10 : Nat), (1012 : Nat)).1 < 11 :=
  c5_restricted_domain.2.2 (10, 1012) (by decide)

/-- Every row of a single-weight table has its reduced value below q. -/
theorem chunkTable_snd_lt (v : Nat) : ∀ r ∈ chunkTable v, r.2 < 3329 := by
  intro r hr
  simp only [chunkTable, List.mem_map, List.mem_range] at hr
  obtain ⟨i, hi, rfl⟩ := hr
  exact Nat.mod_lt _ (by decide)

/-- Every row of the high-chunk table has its reduced value below q. -/
theorem chunk_high_table_snd_lt : ∀ r ∈ chunk_high_table, r.2 < 3329 := by
  intro r hr
  simp only [chunk_high_table, List.mem_map, List.mem_range] at hr
  obtain ⟨i, hi, rfl⟩ := hr
  exact Nat.mod_lt _ (by decide)

/-- C6: For every table generated (single-weight and composite), every
computed `reduced_value` lies in `[0, 3329)`; the embedding is over `Nat`,
where the accumulator `val` is non-negative by construction and the final
step is the `% q` reduction. -/
theorem c6_reduced_values_lt_q (w : Nat) :
    (∀ r ∈ chunkTable w, r.2 < 3329) ∧
    (∀ r ∈ chunk_high_table, r.2 < 3329) ∧
    (∀ p ∈ generation_run, ∀ r ∈ p.2, r.2 < 3329) := by
  refine ⟨chunkTable_snd_lt w, chunk_high_table_snd_lt, ?_⟩
  intro p hp
  simp only [generation_run, List.mem_append, List.mem_map,
    List.mem_singleton] at hp
  rcases hp with ⟨a, _, rfl⟩ | rfl
  · exact chunkTable_snd_lt a.2
  · exact chunk_high_table_snd_lt

/-- Witness for C6: the reduced value of the concrete row `(13, 3313)` of the
weight-767 table is below 3329. -/
theorem c6_reduced_values_lt_q_witness : ((13 : Nat), (3313 : Nat)).2 < 3329 :=
  (c6_reduced_values_lt_q 767).1 (13, 3313) (by decide)

/-- C7: For every table generated for a single chunk, the rows' chunk values
are pairwise distinct and produced in strictly increasing order, starting
at 0 (stated as `List.Pairwise (· < ·)` on the chunk values plus the head
being 0, for both the 4-bit tables and the high-chunk table). -/
theorem c7_rows_strictly_increasing (w : Nat) :
    List.Pairwise (· < ·) ((chunkTable w).map Prod.fst) ∧
    List.Pairwise (· < ·) (chunk_high_table.map Prod.fst) ∧
    ((chunkTable w).map Prod.fst).head? = some 0 ∧
    (chunk_high_table.map Prod.fst).head? = some 0 := by
  refine ⟨?_, by decide, rfl, by decide⟩
  rw [chunkTable_map_fst w]
  exact List.pairwise_lt_range 16

/-- C8: Generation is deterministic: equal inputs produce equal tables, for
the parameterized generator, the source's chunk tables, and the whole run.
The embedding is a pure function of its arguments, matching the script's
absence of randomness and external state. -/
theorem c8_deterministic (w₁ w₂ b₁ b₂ : Nat) (p₁ p₂ : RangePolicy)
    (hw : w₁ = w₂) (hb : b₁ = b₂) (hp : p₁ = p₂) :
    generate_table w₁ b₁ p₁ = generate_table w₂ b₂ p₂ ∧
    chunkTable w₁ = chunkTable w₂ ∧
    generation_run = generation_run := by
  subst hw; subst hb; subst hp
  exact ⟨rfl, rfl, rfl⟩

/-- Witness for C8: two runs on the concrete input (767, 4, full-domain). -/
theorem c8_deterministic_witness :
    generate_table 767 4 RangePolicy.fullDomain =
      generate_table 767 4 RangePolicy.fullDomain ∧
    chunkTable 767 = chunkTable 767 ∧
    generation_run = generation_run :=
  c8_deterministic 767 767 4 4 RangePolicy.fullDomain RangePolicy.fullDomain
    rfl rfl rfl

/-- C9: For every `i` in 0..3 the composite high-chunk table's reduced value
for chunk value `i` equals `(i * 2385) % 3329`: the per-bit-weight rule
coincides with the single-weight rule at weight `2^24 % 3329`, because
`weight_25 = (2 * weight_24) % 3329`. -/
theorem c9_composite_matches_single_weight :
    (∀ i < 4, highVal i = (i * 2385) % 3329) ∧
    weight_24 = 2385 ∧
    weight_25 = (2 * weight_24) % 3329 ∧
    chunk_high_table = (chunkTable weight_24).take 4 := by
  refine ⟨?_, by decide, by decide, by decide⟩
  decide

/-- Witness for C9: the coincidence at the concrete chunk value 2. -/
theorem c9_composite_matches_single_weight_witness :
    highVal 2 = (2 * 2385) % 3329 :=
  c9_composite_matches_single_weight.1 2 (by decide)

/-- C10: For each of the three 4-bit chunk tables (weights 3270, 2285, 767,
exactly the values in `weights_4bit`), the 16 reduced values are pairwise
distinct. -/
theorem c10_reduced_values_distinct :
    weights_4bit.map Prod.snd = [3270, 2285, 767] ∧
    ((chunkTable 3270).map Prod.snd).Nodup ∧
    ((chunkTable 2285).map Prod.snd).Nodup ∧
    ((chunkTable 767).map Prod.snd).Nodup := by decide

end ModularReduceLut
